import Mathlib

/-!
Verification of the clinical-trial qualifier demo backend.

This file gives a shallow embedding of the Python sources
`src/aws/skyflow_manager.py` (the `SkyflowManager` masker/vault) and the
request handlers of `src/aws/fastapi_backend.py` (in-memory store variant),
and proves the specification's testable properties about them.

Study records are Python dicts: we model them as association lists from
field names to a JSON-like value universe, with Python-dict semantics
(first occurrence wins on lookup, in-place replacement on assignment,
insertion order preserved).  Fallible Python code (a `TypeError` raised by
iterating a non-iterable field value) is modelled with `Option`.
-/

set_option maxRecDepth 8000

namespace CTQ

/-- The value universe for study-record fields: JSON-ish values as they occur
in the demo's payloads (strings, lists, booleans, integers, null). -/
inductive Value where
  | str (s : String)
  | list (l : List Value)
  | bool (b : Bool)
  | int (n : Int)
  | null

/-- A study record: a Python dict from field name to value. -/
abbrev Study := List (String × Value)

/-- Python `d[k]` / `d.get(k)`: value of the first entry with key `k`. -/
def dictGet (d : List (String × Value)) (k : String) : Option Value :=
  match d with
  | [] => none
  | (k', v) :: rest => if k' = k then some v else dictGet rest k

/-- Python `d[k] = v`: replace the value at key `k` in place if present,
otherwise append the new entry (dicts preserve insertion order). -/
def dictSet (d : List (String × Value)) (k : String) (v : Value) :
    List (String × Value) :=
  match d with
  | [] => [(k, v)]
  | (k', v') :: rest =>
    if k' = k then (k, v) :: rest else (k', v') :: dictSet rest k v

/-- Python `k in d`. -/
def dictContains (d : List (String × Value)) (k : String) : Bool :=
  (dictGet d k).isSome

/-- Python `d.get(k, default)`. -/
def dictGetD (d : List (String × Value)) (k : String) (v₀ : Value) : Value :=
  (dictGet d k).getD v₀

/-- The keys of a dict, in insertion order (Python `list(d)`). -/
def dictKeys (d : List (String × Value)) : List String :=
  d.map Prod.fst

/-! ### Python string primitives

`skyflow_manager.py` uses `str.startswith` and `str.replace` (replace every
occurrence, left to right).  We model strings through their character lists;
`replaceF` is the replace-all loop with an explicit fuel argument (one unit
per character examined, so `s.length` fuel always suffices) to keep the
definition structurally recursive and kernel-reducible. -/

/-- Python `s.startswith(pat)` on character lists. -/
def listStartsWith (s pat : List Char) : Bool :=
  match s, pat with
  | _, [] => true
  | [], _ :: _ => false
  | c :: cs, p :: ps => c == p && listStartsWith cs ps

/-- Python `s.startswith(pat)`. -/
def pyStartsWith (s pat : String) : Bool :=
  listStartsWith s.data pat.data

/-- Replace-all loop: replace each occurrence of `p :: ps` by `rep`,
scanning left to right.  The fuel decreases by one per step; any fuel
`≥ s.length` gives the untruncated result. -/
def replaceF (p : Char) (ps rep : List Char) (fuel : Nat) (s : List Char) :
    List Char :=
  match fuel, s with
  | 0, s => s
  | _ + 1, [] => []
  | f + 1, c :: cs =>
    if c == p && listStartsWith cs ps then
      rep ++ replaceF p ps rep f (cs.drop ps.length)
    else
      c :: replaceF p ps rep f cs

/-- Python `s.replace(pat, rep)` (all occurrences).  Both uses in the code
base pass a nonempty `pat`, whose head and tail drive the scan loop. -/
def pyReplace (s pat rep : String) : String :=
  ⟨replaceF (pat.data.headD ' ') pat.data.tail rep.data s.data.length s.data⟩

/-- `sponsor.replace('[TOKENIZED:', '').replace(']', '')` from
`detokenize_study`. -/
def extractToken (s : String) : String :=
  pyReplace (pyReplace s "[TOKENIZED:" "") "]" ""

/-! ### Token generation

`_generate_token` returns `f"sky_{self.token_counter:06d}"`: the decimal
representation of the counter, left-padded with `'0'` to at least six
digits, after the prefix `sky_`.  We embed the decimal formatting with a
fuel-based digit expansion (`natDigitsF`), again so that everything reduces
in the kernel. -/

/-- The character of a decimal digit (`chr(ord('0') + d)` for `d < 10`). -/
def digitChar (d : Nat) : Char := Char.ofNat (48 + d)

/-- Decimal digit characters of `n`, most significant first; fuel-based. -/
def natDigitsF (fuel n : Nat) : List Char :=
  match fuel with
  | 0 => []
  | f + 1 =>
    if n < 10 then [digitChar n]
    else natDigitsF f (n / 10) ++ [digitChar (n % 10)]

/-- Decimal digit characters of `n`, most significant first. -/
def natDigits (n : Nat) : List Char := natDigitsF (n + 1) n

/-- Left-pad a digit list with `'0'` to at least six characters
(Python's `%06d` width specifier). -/
def padSix (l : List Char) : List Char :=
  List.replicate (6 - l.length) '0' ++ l

/-- The token string minted for counter value `n`: `f"sky_{n:06d}"`. -/
def tokenOf (n : Nat) : String :=
  ⟨'s' :: 'k' :: 'y' :: '_' :: padSix (natDigits n)⟩

/-- `f"[TOKENIZED:{token}]"`, the masked field value for a token. -/
def tagOf (tok : String) : String := "[TOKENIZED:" ++ tok ++ "]"

/-- Decode a digit list back to the number it denotes (proof tool only;
not part of the source). -/
def decodeDigits (l : List Char) : Nat :=
  l.foldl (fun a c => a * 10 + (c.toNat - 48)) 0

/-! ### The masker: `SkyflowManager` (src/aws/skyflow_manager.py)

State is the vault (`self.token_store`, a dict token → original value)
and the mint counter (`self.token_counter`).  `tokenize_batch` and
`detokenize_study` iterate field values with Python `for`; iterating a
non-iterable value raises `TypeError`, modelled by `Option`. -/

structure SkyflowManager where
  token_store : List (String × Value)
  token_counter : Nat

/-- `SkyflowManager.__init__`: empty vault, counter 0. -/
def SkyflowManager.init : SkyflowManager := ⟨[], 0⟩

/-- `_generate_token`: increment the counter, return `f"sky_{counter:06d}"`. -/
def generate_token (s : SkyflowManager) : String × SkyflowManager :=
  (tokenOf (s.token_counter + 1), ⟨s.token_store, s.token_counter + 1⟩)

/-- Python truthiness of a field value (`if tokenized['lead_sponsor']`). -/
def truthy : Value → Bool
  | .str s => !s.isEmpty
  | .list l => !l.isEmpty
  | .bool b => b
  | .int n => n != 0
  | .null => false

/-- Python `for x in v`: lists iterate their elements, strings iterate
their characters (as one-character strings); other values raise
`TypeError`. -/
def pyIterate : Value → Option (List Value)
  | .list l => some l
  | .str s => some (s.data.map fun c => Value.str ⟨[c]⟩)
  | _ => none

/-- The statement pair `token = self._generate_token();
self.token_store[token] = value`. -/
def mintStore (s : SkyflowManager) (v : Value) : String × SkyflowManager :=
  let p := generate_token s
  (p.1, ⟨dictSet p.2.token_store p.1 v, p.2.token_counter⟩)

/-- The per-element loop of `tokenize_batch` over a sequence field:
mint a token for each element, store the mapping, and emit
`f"[TOKENIZED:{token}]"` in order. -/
def tokenizeSeq (s : SkyflowManager) : List Value → SkyflowManager × List Value
  | [] => (s, [])
  | v :: vs =>
    let p := mintStore s v
    let rest := tokenizeSeq p.2 vs
    (rest.1, Value.str (tagOf p.1) :: rest.2)

/-- The `lead_sponsor` branch of `tokenize_batch`: if the field is present
and truthy, mint one token and overwrite the field with the tag. -/
def tokenizeScalarField (s : SkyflowManager) (t : Study) (fld : String) :
    SkyflowManager × Study :=
  match dictGet t fld with
  | some v =>
    if truthy v then
      let p := mintStore s v
      (p.2, dictSet t fld (Value.str (tagOf p.1)))
    else (s, t)
  | none => (s, t)

/-- The `investigators` / `sites` branches of `tokenize_batch`: if the
field is present and truthy, tokenize each element of the iteration and
overwrite the field with the list of tags. -/
def tokenizeSeqField (s : SkyflowManager) (t : Study) (fld : String) :
    Option (SkyflowManager × Study) :=
  match dictGet t fld with
  | some v =>
    if truthy v then
      (pyIterate v).map fun elems =>
        let p := tokenizeSeq s elems
        (p.1, dictSet t fld (Value.list p.2))
    else some (s, t)
  | none => some (s, t)

/-- The loop body of `tokenize_batch` for one study: copy, set the
protection flag, then the three designated-field branches in order. -/
def tokenizeStudy (s : SkyflowManager) (study : Study) :
    Option (SkyflowManager × Study) :=
  let t₀ := dictSet study "_skyflow_protected" (Value.bool true)
  match tokenizeScalarField s t₀ "lead_sponsor" with
  | (s₁, t₁) =>
    match tokenizeSeqField s₁ t₁ "investigators" with
    | none => none
    | some (s₂, t₂) =>
      match tokenizeSeqField s₂ t₂ "sites" with
      | none => none
      | some (s₃, t₃) => some (s₃, t₃)

/-- `SkyflowManager.tokenize_batch`. -/
def tokenize_batch (s : SkyflowManager) :
    List Study → Option (SkyflowManager × List Study)
  | [] => some (s, [])
  | st :: rest =>
    match tokenizeStudy s st with
    | none => none
    | some (s₁, t) =>
      match tokenize_batch s₁ rest with
      | none => none
      | some (s₂, ts) => some (s₂, t :: ts)

/-- The detokenization applied to one (scalar or element) value:
`if isinstance(x, str) and x.startswith('[TOKENIZED:'):
x = self.token_store.get(token, x)`. -/
def detokValue (store : List (String × Value)) (v : Value) : Value :=
  match v with
  | .str s =>
    if pyStartsWith s "[TOKENIZED:" then
      dictGetD store (extractToken s) (Value.str s)
    else Value.str s
  | v => v

/-- The `lead_sponsor` branch of `detokenize_study`. -/
def detokScalarField (store : List (String × Value)) (t : Study)
    (fld : String) : Study :=
  match dictGet t fld with
  | some (.str s) =>
    if pyStartsWith s "[TOKENIZED:" then
      dictSet t fld (dictGetD store (extractToken s) (Value.str s))
    else t
  | _ => t

/-- The `investigators` / `sites` branches of `detokenize_study`: if the
field is present, rebuild it as the list of detokenized iteration
elements (iteration of a non-iterable raises `TypeError`). -/
def detokSeqField (store : List (String × Value)) (t : Study)
    (fld : String) : Option Study :=
  match dictGet t fld with
  | some v =>
    (pyIterate v).map fun elems =>
      dictSet t fld (Value.list (elems.map (detokValue store)))
  | none => some t

/-- `SkyflowManager.detokenize_study`.  The returned manager component is
the object's state after the call: the method only reads
`self.token_store` (through `dict.get`), so the state passes through. -/
def detokenize_study (s : SkyflowManager) (study : Study) :
    Option (SkyflowManager × Study) :=
  let d₁ := detokScalarField s.token_store study "lead_sponsor"
  match detokSeqField s.token_store d₁ "investigators" with
  | none => none
  | some d₂ =>
    match detokSeqField s.token_store d₂ "sites" with
    | none => none
    | some d₃ => some (s, dictSet d₃ "_skyflow_protected" (Value.bool false))

/-- The result of `SkyflowManager.get_stats`. -/
structure SkyflowStats where
  total_tokens : Nat
  vault_size : Nat
  status : String

/-- `SkyflowManager.get_stats`. -/
def get_stats (s : SkyflowManager) : SkyflowStats :=
  ⟨s.token_counter, s.token_store.length, "active (demo mode)"⟩

/-- `k` successive `_generate_token` calls on a manager (token minting
only touches the counter). -/
def genTokens (s : SkyflowManager) : Nat → List String
  | 0 => []
  | k + 1 =>
    let p := generate_token s
    p.1 :: genTokens p.2 k

/-- Well-formedness of a record in the sense of the spec's data model: the
designated sequence fields (`investigators`, `sites`), when present, hold
sequences. -/
def listOrAbsent (r : Study) (fld : String) : Bool :=
  match dictGet r fld with
  | none => true
  | some (.list _) => true
  | some _ => false

def WFStudy (r : Study) : Bool :=
  listOrAbsent r "investigators" && listOrAbsent r "sites"

/-! ### The in-memory request layer (src/aws/fastapi_backend.py)

`DATA_STORE` holds the current batch and its metadata.  Handlers return a
normal response or an HTTP error (`HTTPException`).  External
collaborators are parameters: the wall clock (`now`) and the LLM answer
(`answer`); whether the LLM client is configured is a flag. -/

structure Metadata where
  total_studies : Nat
  skyflow_protected : Nat
  last_updated : String
  condition : String
  skyflow_tokens : Nat

structure DataStore where
  studies : List Study
  metadata : Option Metadata

def DataStore.init : DataStore := ⟨[], none⟩

structure HTTPError where
  status : Nat
  detail : String

structure LoadResponse where
  studies_loaded : Nat
  skyflow_protected : Nat

/-- `POST /api/load` (`load_data`).  NOTE: the handler's `try` block ends
in a blanket `except Exception as e: raise HTTPException(500, str(e))`,
and `HTTPException` is an `Exception` subclass, so the
`HTTPException(400, "No studies provided")` raised for an empty batch is
caught and re-raised as a 500 whose detail is `str(...)` of the original —
the empty-batch rejection surfaces as HTTP 500, not 400.  A `TypeError`
escaping `tokenize_batch` also surfaces as a 500 (in CPython the partial
vault mutations would survive; this embedding keeps the prior state, which
no claim depends on). -/
def load_data (sky : SkyflowManager) (store : DataStore) (condition : String)
    (studies : List Study) (now : String) :
    SkyflowManager × DataStore × Except HTTPError LoadResponse :=
  if studies.isEmpty then
    (sky, store, Except.error ⟨500, "400: No studies provided"⟩)
  else
    match tokenize_batch sky studies with
    | some p =>
      (p.1,
        ⟨p.2, some ⟨studies.length, p.2.length, now, condition,
          (get_stats p.1).total_tokens⟩⟩,
        Except.ok ⟨studies.length, p.2.length⟩)
    | none => (sky, store, Except.error ⟨500, "TypeError"⟩)

structure StudiesResponse where
  total : Nat
  returned : Nat
  studies : List Study

/-- `GET /api/studies` (`get_studies`): 404 when nothing is loaded,
otherwise the first `limit` records of the current batch in load order.
(The `condition` query parameter is accepted but never used.) -/
def get_studies (store : DataStore) (limit : Nat) :
    Except HTTPError StudiesResponse :=
  if store.studies.isEmpty then
    Except.error ⟨404, "No data loaded. Use POST /api/load first"⟩
  else
    Except.ok ⟨store.studies.length, min store.studies.length limit,
      store.studies.take limit⟩

structure AskResponse where
  question : String
  answer : String
  total_studies : Nat
  analyzed_studies : Nat

/-- `sample = studies[:40]` — the fixed analysis cap of `/api/ask`. -/
def askSample (studies : List Study) : List Study := studies.take 40

/-- `POST /api/ask` (`ask_claude`): 503 when the LLM client is not
configured, 400 on an empty question, 404 when nothing is loaded;
otherwise the LLM's raw `answer` with the bookkeeping counts. -/
def ask_claude (claudeConfigured : Bool) (store : DataStore)
    (question : String) (answer : String) : Except HTTPError AskResponse :=
  if !claudeConfigured then
    Except.error ⟨503, "Claude API not configured. Set ANTHROPIC_API_KEY"⟩
  else if question.isEmpty then
    Except.error ⟨400, "No question provided"⟩
  else if store.studies.isEmpty then
    Except.error ⟨404, "No data loaded. Use POST /api/load first"⟩
  else
    Except.ok ⟨question, answer, store.studies.length,
      (askSample store.studies).length⟩

structure CacheResponse where
  studies_cached : Nat
  condition : String

/-- Assoc-list update for the modelled Redis keyspace. -/
def strSet (m : List (String × String)) (k v : String) :
    List (String × String) :=
  match m with
  | [] => [(k, v)]
  | (k', v') :: rest =>
    if k' = k then (k, v) :: rest else (k', v') :: strSet rest k v

/-- `POST /api/cache` (`cache_data`, src/aws/full_test_backend.py): the
Flask/Redis variant of the load operation.  The Redis client is modelled
as a string key-value store; JSON serialization and the metadata payload
are abstracted as parameters, and the 1-hour TTL is not modelled (no claim
depends on expiry).  The empty-batch rejection returns 400 directly,
before any Redis write. -/
def cache_data (redisConnected : Bool) (rs : List (String × String))
    (encStudies : List Study → String)
    (encMeta : Nat → String → String → String)
    (condition : String) (studies : List Study) (now : String) :
    List (String × String) × Except HTTPError CacheResponse :=
  if !redisConnected then
    (rs, Except.error ⟨503, "Redis not connected"⟩)
  else if studies.isEmpty then
    (rs, Except.error ⟨400, "No studies provided"⟩)
  else
    let rs₁ := strSet rs ("trials:" ++ condition.toLower) (encStudies studies)
    let rs₂ := strSet rs₁ "trials:all" (encStudies studies)
    let rs₃ := strSet rs₂ "trials:metadata"
      (encMeta studies.length now condition)
    (rs₃, Except.ok ⟨studies.length, condition⟩)

/-! ### Object-identity model of `tokenize_batch`

For the no-mutation contract we also give `tokenize_batch` in a heap-
passing form: records are objects (heap cells) referenced by index;
`study.copy()` plus the subsequent field assignments build a fresh object
(`tokenizeStudy` of the read value) which is allocated at a fresh
reference.  No write ever targets an input reference. -/

abbrev Heap := List Study

def heapRead (h : Heap) (r : Nat) : Study := h.getD r []

def heapAlloc (h : Heap) (d : Study) : Nat × Heap := (h.length, h ++ [d])

def tokenize_batch_heap (sky : SkyflowManager) (h : Heap) :
    List Nat → Option (SkyflowManager × Heap × List Nat)
  | [] => some (sky, h, [])
  | r :: rest =>
    match tokenizeStudy sky (heapRead h r) with
    | none => none
    | some (sky₁, d) =>
      match tokenize_batch_heap sky₁ (heapAlloc h d).2 rest with
      | none => none
      | some (sky₂, h₂, rs₂) => some (sky₂, h₂, (heapAlloc h d).1 :: rs₂)

/-! ### Vault extension

Masking only ever adds vault entries under freshly minted tokens, so the
entry of any previously minted token survives every later operation.
`Extends s s'` captures that: the counter has not decreased and every
token key within the old counter range reads the same. -/

def Extends (s s' : SkyflowManager) : Prop :=
  s.token_counter ≤ s'.token_counter ∧
  ∀ j, 1 ≤ j → j ≤ s.token_counter →
    dictGet s'.token_store (tokenOf j) = dictGet s.token_store (tokenOf j)

/-- The recovery contract of a masked scalar value: in any extension of
the masking-time vault, the detokenization transform maps it back to the
original value. -/
def RecoverVal (s' : SkyflowManager) (m v : Value) : Prop :=
  ∀ s₂ : SkyflowManager, Extends s' s₂ → detokValue s₂.token_store m = v

/-! ### Vault-size invariant and reachable masker states -/

/-- The vault keys of a manager that started fresh are exactly the tokens
`sky_000001 … sky_<counter>`, in mint order. -/
def VaultInv (s : SkyflowManager) : Prop :=
  dictKeys s.token_store =
    (List.range s.token_counter).map (fun i => tokenOf (i + 1))

/-- States reachable from a freshly constructed `SkyflowManager` by any
sequence of (successful) `tokenize_batch` and `detokenize_study` calls,
paired with the number of tokens minted so far.  `_generate_token` is the
only code that touches `token_counter` and it increments it by exactly one
per minted token, so the mints of one `tokenize_batch` call equal its
counter increase. -/
inductive Reachable : SkyflowManager → Nat → Prop
  | init : Reachable SkyflowManager.init 0
  | mask (s : SkyflowManager) (n : Nat) (studies : List Study)
      (s' : SkyflowManager) (out : List Study) :
      Reachable s n → tokenize_batch s studies = some (s', out) →
      Reachable s' (n + (s'.token_counter - s.token_counter))
  | unmask (s : SkyflowManager) (n : Nat) (r : Study)
      (s' : SkyflowManager) (d : Study) :
      Reachable s n → detokenize_study s r = some (s', d) →
      Reachable s' n

/-- `f"sky_{...:06d}"` output with exactly six digits after the prefix. -/
def SixDigitForm (t : String) : Prop :=
  ∃ ds : List Char, ds.length = 6 ∧ (∀ c ∈ ds, c.isDigit = true) ∧
    t.data = 's' :: 'k' :: 'y' :: '_' :: ds

/-- A demo record used by the concrete witnesses. -/
def sampleStudy : Study :=
  [("nct_id", Value.str "NCT1"), ("lead_sponsor", Value.str "Acme Health"),
   ("investigators", Value.list [Value.str "Dr A", Value.str "Dr B"]),
   ("sites", Value.list [Value.str "Site 1"])]

/-- A record carrying only never-minted tokens, for the C6 witness. -/
def unknownTokenStudy : Study :=
  [("lead_sponsor", Value.str "[TOKENIZED:sky_000042]"),
   ("investigators", Value.list [Value.str "[TOKENIZED:sky_000099]"])]

@[simp] theorem dictGet_nil (k : String) : dictGet [] k = none := rfl

@[simp] theorem dictGet_cons (k' k : String) (v : Value) (d : List (String × Value)) :
    dictGet ((k', v) :: d) k = if k' = k then some v else dictGet d k := rfl

theorem dictGet_set_self (d : List (String × Value)) (k : String) (v : Value) :
    dictGet (dictSet d k v) k = some v := by
  induction d with
  | nil => simp [dictSet]
  | cons p rest ih =>
    obtain ⟨k', v'⟩ := p
    by_cases h : k' = k <;> simp [dictSet, h, ih]

theorem dictGet_set_ne (d : List (String × Value)) (k k' : String) (v : Value)
    (h : k' ≠ k) : dictGet (dictSet d k v) k' = dictGet d k' := by
  induction d with
  | nil => simp [dictSet, Ne.symm h]
  | cons p rest ih =>
    obtain ⟨k₀, v₀⟩ := p
    by_cases h₀ : k₀ = k
    · subst h₀
      simp [dictSet, Ne.symm h, h]
    · simp only [dictSet, if_neg h₀, dictGet_cons, ih]

theorem dictSet_get_self (d : List (String × Value)) (k : String) (v : Value)
    (h : dictGet d k = some v) : dictSet d k v = d := by
  induction d with
  | nil => simp [dictGet] at h
  | cons p rest ih =>
    obtain ⟨k₀, v₀⟩ := p
    by_cases h₀ : k₀ = k
    · subst h₀
      rw [dictGet_cons, if_pos rfl] at h
      injection h with h
      subst h
      simp [dictSet]
    · simp only [dictGet_cons, if_neg h₀] at h
      simp [dictSet, h₀, ih h]

theorem dictKeys_set_of_present (d : List (String × Value)) (k : String) (v : Value)
    (h : (dictGet d k).isSome) : dictKeys (dictSet d k v) = dictKeys d := by
  induction d with
  | nil => simp [dictGet] at h
  | cons p rest ih =>
    obtain ⟨k₀, v₀⟩ := p
    by_cases h₀ : k₀ = k
    · subst h₀
      simp [dictSet, dictKeys]
    · simp only [dictGet_cons, if_neg h₀] at h
      simp [dictSet, h₀, dictKeys] at ih ⊢
      exact ih h

theorem dictKeys_set_of_absent (d : List (String × Value)) (k : String) (v : Value)
    (h : dictGet d k = none) : dictKeys (dictSet d k v) = dictKeys d ++ [k] := by
  induction d with
  | nil => simp [dictSet, dictKeys]
  | cons p rest ih =>
    obtain ⟨k₀, v₀⟩ := p
    by_cases h₀ : k₀ = k
    · subst h₀
      simp at h
    · simp only [dictGet_cons, if_neg h₀] at h
      simp [dictSet, h₀, dictKeys] at ih ⊢
      exact ih h

theorem dictGet_eq_none_of_not_mem_keys (d : List (String × Value)) (k : String)
    (h : k ∉ dictKeys d) : dictGet d k = none := by
  induction d with
  | nil => rfl
  | cons p rest ih =>
    obtain ⟨k₀, v₀⟩ := p
    have hcons : dictKeys ((k₀, v₀) :: rest) = k₀ :: dictKeys rest := rfl
    rw [hcons, List.mem_cons] at h
    push_neg at h
    simp [dictGet_cons, Ne.symm h.1, ih h.2]

/-! ### Facts about the decimal formatting -/

theorem natDigitsF_succ (f n : Nat) :
    natDigitsF (f + 1) n =
      if n < 10 then [digitChar n]
      else natDigitsF f (n / 10) ++ [digitChar (n % 10)] := rfl

theorem natDigitsF_irrel :
    ∀ n f₁ f₂ : Nat, n < f₁ → n < f₂ → natDigitsF f₁ n = natDigitsF f₂ n := by
  intro n
  induction n using Nat.strong_induction_on with
  | _ n ih =>
    intro f₁ f₂ h₁ h₂
    obtain ⟨g₁, rfl⟩ : ∃ g, f₁ = g + 1 := ⟨f₁ - 1, by omega⟩
    obtain ⟨g₂, rfl⟩ : ∃ g, f₂ = g + 1 := ⟨f₂ - 1, by omega⟩
    by_cases h10 : n < 10
    · simp [natDigitsF_succ, h10]
    · have hd : n / 10 < n := Nat.div_lt_self (by omega) (by norm_num)
      rw [natDigitsF_succ, natDigitsF_succ, if_neg h10, if_neg h10,
        ih (n / 10) hd g₁ g₂ (by omega) (by omega)]

theorem natDigits_unfold (n : Nat) :
    natDigits n =
      if n < 10 then [digitChar n]
      else natDigits (n / 10) ++ [digitChar (n % 10)] := by
  by_cases h10 : n < 10
  · simp [natDigits, natDigitsF_succ, h10]
  · have hd : n / 10 < n := Nat.div_lt_self (by omega) (by norm_num)
    rw [natDigits, natDigitsF_succ, if_neg h10, if_neg h10, natDigits,
      natDigitsF_irrel (n / 10) n (n / 10 + 1) hd (by omega)]

theorem digitChar_facts :
    ∀ d, d < 10 →
      (digitChar d).toNat - 48 = d ∧ (digitChar d).isDigit = true ∧
        digitChar d ≠ '[' ∧ digitChar d ≠ ']' := by decide

theorem natDigits_mem (n : Nat) :
    ∀ c ∈ natDigits n, ∃ d, d < 10 ∧ c = digitChar d := by
  induction n using Nat.strong_induction_on with
  | _ n ih =>
    intro c hc
    rw [natDigits_unfold] at hc
    by_cases h10 : n < 10
    · rw [if_pos h10] at hc
      simp at hc
      exact ⟨n, h10, hc⟩
    · rw [if_neg h10] at hc
      rcases List.mem_append.mp hc with hc | hc
      · exact ih (n / 10) (Nat.div_lt_self (by omega) (by norm_num)) c hc
      · simp at hc
        exact ⟨n % 10, Nat.mod_lt _ (by norm_num), hc⟩

theorem decodeDigits_append_digit (l : List Char) (c : Char) :
    decodeDigits (l ++ [c]) = decodeDigits l * 10 + (c.toNat - 48) := by
  simp [decodeDigits, List.foldl_append]

theorem decodeDigits_natDigits (n : Nat) : decodeDigits (natDigits n) = n := by
  induction n using Nat.strong_induction_on with
  | _ n ih =>
    rw [natDigits_unfold]
    by_cases h10 : n < 10
    · rw [if_pos h10]
      have hv := (digitChar_facts n h10).1
      simp [decodeDigits]
      omega
    · rw [if_neg h10, decodeDigits_append_digit,
        ih (n / 10) (Nat.div_lt_self (by omega) (by norm_num))]
      have hv := (digitChar_facts (n % 10) (Nat.mod_lt _ (by norm_num))).1
      omega

theorem decode_padSix (l : List Char) : decodeDigits (padSix l) = decodeDigits l := by
  have h : ∀ k, List.foldl (fun a c => a * 10 + (c.toNat - 48)) 0
      (List.replicate k '0') = 0 := by
    intro k
    induction k with
    | zero => rfl
    | succ k ihk =>
      have h0 : (0 * 10 + (('0'.toNat) - 48)) = 0 := by decide
      simp only [List.replicate_succ, List.foldl_cons, h0, ihk]
  simp [padSix, decodeDigits, List.foldl_append, h]

theorem tokenOf_injective : Function.Injective tokenOf := by
  intro m n h
  have hd := congrArg String.data h
  simp only [tokenOf, List.cons.injEq, true_and] at hd
  have hp : padSix (natDigits m) = padSix (natDigits n) := hd
  have hdec := congrArg decodeDigits hp
  rw [decode_padSix, decode_padSix, decodeDigits_natDigits,
    decodeDigits_natDigits] at hdec
  exact hdec

theorem tokenOf_chars (n : Nat) :
    ∀ c ∈ (tokenOf n).data, c ≠ '[' ∧ c ≠ ']' := by
  intro c hc
  have hdata : (tokenOf n).data = 's' :: 'k' :: 'y' :: '_' :: padSix (natDigits n) := rfl
  rw [hdata] at hc
  simp only [List.mem_cons] at hc
  rcases hc with rfl | rfl | rfl | rfl | hc
  · decide
  · decide
  · decide
  · decide
  · rcases List.mem_append.mp hc with hc | hc
    · have := List.eq_of_mem_replicate hc
      subst this
      decide
    · obtain ⟨d, hd, rfl⟩ := natDigits_mem n c hc
      exact ⟨(digitChar_facts d hd).2.2.1, (digitChar_facts d hd).2.2.2⟩

theorem natDigits_length_le :
    ∀ k n : Nat, 0 < k → n < 10 ^ k → (natDigits n).length ≤ k := by
  intro k
  induction k with
  | zero => intro n h _; omega
  | succ k ihk =>
    intro n _ h
    rw [natDigits_unfold]
    by_cases h10 : n < 10
    · rw [if_pos h10]
      simp
    · rcases Nat.eq_zero_or_pos k with rfl | hk0
      · norm_num at h
        omega
      · have hdiv : n / 10 < 10 ^ k := by
          rw [Nat.div_lt_iff_lt_mul (by norm_num)]
          calc n < 10 ^ (k + 1) := h
            _ = 10 ^ k * 10 := by ring
        have hlen := ihk (n / 10) hk0 hdiv
        rw [if_neg h10]
        simp only [List.length_append, List.length_singleton]
        omega

theorem padSix_length (l : List Char) (h : l.length ≤ 6) :
    (padSix l).length = 6 := by
  simp [padSix]
  omega

theorem natDigits_isDigit (n : Nat) :
    ∀ c ∈ natDigits n, c.isDigit = true := by
  intro c hc
  obtain ⟨d, hd, rfl⟩ := natDigits_mem n c hc
  exact (digitChar_facts d hd).2.1

/-! ### Facts about `startswith` and `replace` -/

theorem listStartsWith_nil_pat (s : List Char) : listStartsWith s [] = true := by
  cases s <;> rfl

theorem listStartsWith_append (pat rest : List Char) :
    listStartsWith (pat ++ rest) pat = true := by
  induction pat with
  | nil => exact listStartsWith_nil_pat rest
  | cons p ps ih => simp [listStartsWith, ih]

theorem replaceF_nil (p : Char) (ps rep : List Char) (fuel : Nat) :
    replaceF p ps rep fuel [] = [] := by
  cases fuel <;> rfl

theorem replaceF_succ_cons (p : Char) (ps rep : List Char) (f : Nat) (c : Char)
    (cs : List Char) :
    replaceF p ps rep (f + 1) (c :: cs) =
      if c == p && listStartsWith cs ps then
        rep ++ replaceF p ps rep f (cs.drop ps.length)
      else
        c :: replaceF p ps rep f cs := rfl

/-- Characters that can never start the pattern pass through the scan. -/
theorem replaceF_skip (p : Char) (ps rep : List Char) :
    ∀ (t u : List Char) (fuel : Nat), p ∉ t → (t ++ u).length ≤ fuel →
      replaceF p ps rep fuel (t ++ u) =
        t ++ replaceF p ps rep (fuel - t.length) u := by
  intro t
  induction t with
  | nil => intro u fuel _ _; simp
  | cons c t' ih =>
    intro u fuel hmem hlen
    obtain ⟨f, rfl⟩ : ∃ f, fuel = f + 1 :=
      ⟨fuel - 1, by simp [List.length_append] at hlen; omega⟩
    have hne : c ≠ p := fun e => hmem (by simp [e])
    have hmem' : p ∉ t' := fun e => hmem (by simp [e])
    have hb : (c == p) = false := by simp [hne]
    rw [List.cons_append, replaceF_succ_cons, hb]
    simp only [Bool.false_and, Bool.false_eq_true, if_false]
    rw [ih u f hmem' (by simp [List.length_append] at hlen ⊢; omega)]
    simp [Nat.succ_sub_succ]

/-- A pattern occurrence at the head of the scan is replaced. -/
theorem replaceF_match (p : Char) (ps rep u : List Char) (f : Nat) :
    replaceF p ps rep (f + 1) (p :: (ps ++ u)) = rep ++ replaceF p ps rep f u := by
  rw [replaceF_succ_cons]
  simp [listStartsWith_append, List.drop_left]

/-- Extracting the token back out of a masked field value: the
`replace`-based parse in `detokenize_study` recovers exactly the token,
for any token containing neither `'['` nor `']'`. -/
theorem extractToken_tagOf (tok : String)
    (h : ∀ c ∈ tok.data, c ≠ '[' ∧ c ≠ ']') :
    extractToken (tagOf tok) = tok := by
  obtain ⟨T⟩ := tok
  have hT1 : '[' ∉ T := fun e => ((h '[' e).1 rfl)
  have hT2 : ']' ∉ T := fun e => ((h ']' e).2 rfl)
  have hdata : (tagOf ⟨T⟩).data = '[' :: ("TOKENIZED:".data ++ (T ++ [']'])) := by
    show ("[TOKENIZED:" ++ String.mk T ++ "]").data = _
    rw [String.data_append, String.data_append]
    show "[TOKENIZED:".data ++ T ++ [']'] = _
    rw [List.append_assoc]
    rfl
  have hstep1 : pyReplace (tagOf ⟨T⟩) "[TOKENIZED:" "" = ⟨T ++ [']']⟩ := by
    show (⟨replaceF '[' "TOKENIZED:".data [] (tagOf ⟨T⟩).data.length
      (tagOf ⟨T⟩).data⟩ : String) = ⟨T ++ [']']⟩
    rw [hdata]
    have hlen : ('[' :: ("TOKENIZED:".data ++ (T ++ [']']))).length =
        (10 + (T.length + 1)) + 1 := by
      simp only [List.length_cons, List.length_append, List.length_nil]
    rw [hlen, replaceF_match]
    rw [replaceF_skip '[' "TOKENIZED:".data [] T [']'] (10 + (T.length + 1))
      hT1 (by simp only [List.length_append, List.length_cons, List.length_nil]; omega)]
    have hfuel : 10 + (T.length + 1) - T.length = 11 := by omega
    rw [hfuel]
    have : replaceF '[' "TOKENIZED:".data [] 11 [']'] = [']'] := rfl
    rw [this]
    rfl
  have hstep2 : pyReplace ⟨T ++ [']']⟩ "]" "" = ⟨T⟩ := by
    show (⟨replaceF ']' [] [] (T ++ [']']).length (T ++ [']'])⟩ : String) = ⟨T⟩
    have hlen : (T ++ [']']).length = T.length + 1 := by
      simp [List.length_append]
    rw [hlen,
      replaceF_skip ']' [] [] T [']'] (T.length + 1) hT2 (by simp [List.length_append])]
    have hfuel : T.length + 1 - T.length = 1 := by omega
    rw [hfuel]
    have : replaceF ']' [] [] 1 [']'] = [] := rfl
    rw [this]
    rw [List.append_nil]
  show pyReplace (pyReplace (tagOf ⟨T⟩) "[TOKENIZED:" "") "]" "" = ⟨T⟩
  rw [hstep1, hstep2]

/-- A masked field value does start with the protection tag. -/
theorem pyStartsWith_tagOf (tok : String) :
    pyStartsWith (tagOf tok) "[TOKENIZED:" = true := by
  obtain ⟨T⟩ := tok
  show listStartsWith (tagOf ⟨T⟩).data "[TOKENIZED:".data = true
  have hdata : (tagOf ⟨T⟩).data = "[TOKENIZED:".data ++ (T ++ [']']) := by
    show ("[TOKENIZED:" ++ String.mk T ++ "]").data = _
    rw [String.data_append, String.data_append]
    show "[TOKENIZED:".data ++ T ++ [']'] = _
    rw [List.append_assoc]
  rw [hdata, listStartsWith_append]

theorem extends_refl (s : SkyflowManager) : Extends s s :=
  ⟨Nat.le_refl _, fun _ _ _ => rfl⟩

theorem extends_trans {s₁ s₂ s₃ : SkyflowManager}
    (h₁ : Extends s₁ s₂) (h₂ : Extends s₂ s₃) : Extends s₁ s₃ := by
  refine ⟨Nat.le_trans h₁.1 h₂.1, fun j hj₁ hj₂ => ?_⟩
  rw [h₂.2 j hj₁ (Nat.le_trans hj₂ h₁.1), h₁.2 j hj₁ hj₂]

theorem mintStore_fst (s : SkyflowManager) (v : Value) :
    (mintStore s v).1 = tokenOf (s.token_counter + 1) := rfl

theorem mintStore_counter (s : SkyflowManager) (v : Value) :
    (mintStore s v).2.token_counter = s.token_counter + 1 := rfl

theorem mintStore_store (s : SkyflowManager) (v : Value) :
    (mintStore s v).2.token_store =
      dictSet s.token_store (tokenOf (s.token_counter + 1)) v := rfl

theorem mintStore_get_self (s : SkyflowManager) (v : Value) :
    dictGet (mintStore s v).2.token_store (tokenOf (s.token_counter + 1)) =
      some v :=
  dictGet_set_self _ _ _

theorem mintStore_extends (s : SkyflowManager) (v : Value) :
    Extends s (mintStore s v).2 := by
  refine ⟨by rw [mintStore_counter]; omega, fun j hj₁ hj₂ => ?_⟩
  rw [mintStore_store]
  exact dictGet_set_ne _ _ _ _
    (fun e => by have := tokenOf_injective e; omega)

theorem recover_of_minted (s' : SkyflowManager) (n : Nat) (v : Value)
    (h1 : 1 ≤ n) (h2 : n ≤ s'.token_counter)
    (h3 : dictGet s'.token_store (tokenOf n) = some v) :
    RecoverVal s' (Value.str (tagOf (tokenOf n))) v := by
  intro s₂ hext
  have hkey := hext.2 n h1 h2
  have hsw := pyStartsWith_tagOf (tokenOf n)
  have hex := extractToken_tagOf _ (tokenOf_chars n)
  simp only [detokValue, hsw, if_true, hex]
  simp [dictGetD, hkey, h3]

/-- Full specification of the per-element tokenization loop. -/
theorem tokenizeSeq_spec :
    ∀ (l : List Value) (s s' : SkyflowManager) (out : List Value),
      tokenizeSeq s l = (s', out) →
      s'.token_counter = s.token_counter + l.length ∧
      Extends s s' ∧
      out.length = l.length ∧
      (∀ i (hi : i < l.length) (ho : i < out.length),
        out.get ⟨i, ho⟩ =
          Value.str (tagOf (tokenOf (s.token_counter + i + 1))) ∧
        dictGet s'.token_store (tokenOf (s.token_counter + i + 1)) =
          some (l.get ⟨i, hi⟩)) := by
  intro l
  induction l with
  | nil =>
    intro s s' out h
    obtain ⟨rfl, rfl⟩ : s = s' ∧ [] = out := by
      simpa [tokenizeSeq] using congrArg (fun p => (p.1, p.2)) h
    exact ⟨rfl, extends_refl s, rfl, fun i hi => by simp at hi⟩
  | cons v vs ih =>
    intro s s' out h
    simp only [tokenizeSeq] at h
    rcases hq : tokenizeSeq (mintStore s v).2 vs with ⟨s₁, out₁⟩
    rw [hq] at h
    simp only [Prod.mk.injEq] at h
    obtain ⟨rfl, rfl⟩ := h
    obtain ⟨hc, hext, hlen, helem⟩ := ih (mintStore s v).2 s₁ out₁ hq
    have hcm := mintStore_counter s v
    refine ⟨by rw [hc, hcm]; simp; omega,
      extends_trans (mintStore_extends s v) hext, by simp [hlen], ?_⟩
    intro i hi ho
    match i with
    | 0 =>
      refine ⟨by simp [mintStore_fst], ?_⟩
      have hget := mintStore_get_self s v
      have := hext.2 (s.token_counter + 1) (by omega) (by rw [hcm])
      simp only [List.get]
      rw [this, hget]
    | Nat.succ j =>
      have hj : j < vs.length := by simpa using hi
      have hjo : j < out₁.length := by simpa using ho
      obtain ⟨h1, h2⟩ := helem j hj hjo
      have harith : (mintStore s v).2.token_counter + j + 1 =
          s.token_counter + (j + 1) + 1 := by rw [hcm]; omega
      refine ⟨?_, ?_⟩
      · simpa [harith] using h1
      · rw [← harith]
        simpa using h2

theorem tokenizeSeq_recovers (l : List Value) (s s' : SkyflowManager)
    (out : List Value) (h : tokenizeSeq s l = (s', out)) :
    ∀ s₂, Extends s' s₂ → out.map (detokValue s₂.token_store) = l := by
  obtain ⟨hc, _, hlen, helem⟩ := tokenizeSeq_spec l s s' out h
  intro s₂ hext₂
  apply List.ext_get (by simp [hlen])
  intro i h1 h2
  have hio : i < out.length := by simpa using h1
  obtain ⟨he, hst⟩ := helem i h2 hio
  have hrec := recover_of_minted s' (s.token_counter + i + 1)
    (l.get ⟨i, h2⟩) (by omega) (by rw [hc]; omega) hst
  have hmap : (out.map (detokValue s₂.token_store)).get ⟨i, h1⟩ =
      detokValue s₂.token_store (out.get ⟨i, hio⟩) := by
    simp
  rw [hmap, he, hrec s₂ hext₂]

theorem tokenizeScalarField_spec (s s' : SkyflowManager) (t t' : Study)
    (fld : String) (h : tokenizeScalarField s t fld = (s', t')) :
    Extends s s' ∧
    (∀ k, k ≠ fld → dictGet t' k = dictGet t k) ∧
    (∀ v, dictGet t fld = some v → truthy v = true →
      ∃ mval, dictGet t' fld = some mval ∧ RecoverVal s' mval v) ∧
    (∀ v, dictGet t fld = some v → truthy v = false → s' = s ∧ t' = t) ∧
    (dictGet t fld = none → s' = s ∧ t' = t) := by
  cases hg : dictGet t fld with
  | none =>
    simp only [tokenizeScalarField, hg] at h
    simp only [Prod.mk.injEq] at h
    obtain ⟨rfl, rfl⟩ := h
    refine ⟨extends_refl s, fun k _ => rfl, ?_, ?_, fun _ => ⟨rfl, rfl⟩⟩
    · intro v hv
      cases hv
    · intro v hv
      cases hv
  | some v =>
    cases ht : truthy v with
    | false =>
      simp only [tokenizeScalarField, hg, ht, Bool.false_eq_true, if_false] at h
      simp only [Prod.mk.injEq] at h
      obtain ⟨rfl, rfl⟩ := h
      refine ⟨extends_refl s, fun k _ => rfl, ?_, fun _ _ _ => ⟨rfl, rfl⟩, fun _ => ⟨rfl, rfl⟩⟩
      intro v' hv' htr'
      injection hv' with hv'
      subst hv'
      rw [ht] at htr'
      cases htr'
    | true =>
      simp only [tokenizeScalarField, hg, ht, if_true] at h
      simp only [Prod.mk.injEq] at h
      obtain ⟨rfl, rfl⟩ := h
      refine ⟨mintStore_extends s v, fun k hk => dictGet_set_ne _ _ _ _ hk, ?_, ?_, ?_⟩
      · intro v' hv' _
        injection hv' with hv'
        subst hv'
        refine ⟨_, dictGet_set_self _ _ _, ?_⟩
        rw [mintStore_fst]
        exact recover_of_minted _ (s.token_counter + 1) v (by omega)
          (by rw [mintStore_counter]) (mintStore_get_self s v)
      · intro v' hv' htr'
        injection hv' with hv'
        subst hv'
        rw [ht] at htr'
        cases htr'
      · intro hv
        cases hv

theorem tokenizeSeqField_spec (s s' : SkyflowManager) (t t' : Study)
    (fld : String) (h : tokenizeSeqField s t fld = some (s', t')) :
    Extends s s' ∧
    (∀ k, k ≠ fld → dictGet t' k = dictGet t k) ∧
    (∀ l, dictGet t fld = some (Value.list l) → truthy (Value.list l) = true →
      ∃ out, dictGet t' fld = some (Value.list out) ∧
        ∀ s₂, Extends s' s₂ → out.map (detokValue s₂.token_store) = l) ∧
    (listOrAbsent t fld = true → listOrAbsent t' fld = true) := by
  cases hg : dictGet t fld with
  | none =>
    simp only [tokenizeSeqField, hg, Option.some.injEq] at h
    simp only [Prod.mk.injEq] at h
    obtain ⟨rfl, rfl⟩ := h
    refine ⟨extends_refl s, fun k _ => rfl, ?_, fun hla => hla⟩
    intro l hl
    cases hl
  | some v =>
    cases ht : truthy v with
    | false =>
      simp only [tokenizeSeqField, hg, ht, Bool.false_eq_true, if_false,
        Option.some.injEq] at h
      simp only [Prod.mk.injEq] at h
      obtain ⟨rfl, rfl⟩ := h
      refine ⟨extends_refl s, fun k _ => rfl, ?_, fun hla => hla⟩
      intro l hl htr
      injection hl with hl
      subst hl
      rw [ht] at htr
      cases htr
    | true =>
      simp only [tokenizeSeqField, hg, ht, if_true] at h
      cases hit : pyIterate v with
      | none =>
        rw [hit] at h
        cases h
      | some elems =>
        rw [hit] at h
        simp only [Option.map_some', Option.some.injEq] at h
        rcases hq : tokenizeSeq s elems with ⟨s₁, out⟩
        rw [hq] at h
        simp only [Prod.mk.injEq] at h
        obtain ⟨rfl, rfl⟩ := h
        obtain ⟨_, hext, _, _⟩ := tokenizeSeq_spec elems s s₁ out hq
        refine ⟨hext, fun k hk => dictGet_set_ne _ _ _ _ hk, ?_, ?_⟩
        · intro l hl _
          injection hl with hl
          subst hl
          have hel : elems = l := by
            have : pyIterate (Value.list l) = some l := rfl
            rw [this] at hit
            injection hit with hit
            exact hit.symm
          subst hel
          exact ⟨out, dictGet_set_self _ _ _, tokenizeSeq_recovers elems s s₁ out hq⟩
        · intro _
          unfold listOrAbsent
          rw [dictGet_set_self]

theorem tokenizeSeqField_success (s : SkyflowManager) (t : Study) (fld : String)
    (h : listOrAbsent t fld = true) :
    ∃ s' t', tokenizeSeqField s t fld = some (s', t') := by
  unfold listOrAbsent at h
  cases hg : dictGet t fld with
  | none => exact ⟨s, t, by simp [tokenizeSeqField, hg]⟩
  | some v =>
    rw [hg] at h
    cases v with
    | list l =>
      cases ht : truthy (Value.list l) with
      | false => exact ⟨s, t, by simp [tokenizeSeqField, hg, ht]⟩
      | true =>
        refine ⟨(tokenizeSeq s l).1, dictSet t fld (Value.list (tokenizeSeq s l).2), ?_⟩
        simp [tokenizeSeqField, hg, ht, pyIterate]
    | str v => cases h
    | bool b => cases h
    | int n => cases h
    | null => cases h

theorem listOrAbsent_of_get_eq (t t' : Study) (fld : String)
    (h : dictGet t' fld = dictGet t fld) (h2 : listOrAbsent t fld = true) :
    listOrAbsent t' fld = true := by
  unfold listOrAbsent at *
  rw [h]
  exact h2

theorem recoverVal_mono {s₁ s₂ : SkyflowManager} {m v : Value}
    (h : RecoverVal s₁ m v) (hext : Extends s₁ s₂) : RecoverVal s₂ m v :=
  fun s₃ hext' => h s₃ (extends_trans hext hext')

theorem tokenizeStudy_spec (s : SkyflowManager) (r : Study)
    (s' : SkyflowManager) (m : Study) (h : tokenizeStudy s r = some (s', m)) :
    Extends s s' ∧
    dictGet m "_skyflow_protected" = some (Value.bool true) ∧
    (∀ k, k ≠ "lead_sponsor" → k ≠ "investigators" → k ≠ "sites" →
      k ≠ "_skyflow_protected" → dictGet m k = dictGet r k) ∧
    (∀ v, dictGet r "lead_sponsor" = some v → truthy v = true →
      ∃ mval, dictGet m "lead_sponsor" = some mval ∧ RecoverVal s' mval v) ∧
    (∀ fld, fld = "investigators" ∨ fld = "sites" →
      ∀ l, dictGet r fld = some (Value.list l) → truthy (Value.list l) = true →
        ∃ out, dictGet m fld = some (Value.list out) ∧
          ∀ s₂, Extends s' s₂ → out.map (detokValue s₂.token_store) = l) ∧
    (listOrAbsent r "investigators" = true →
      listOrAbsent m "investigators" = true) ∧
    (listOrAbsent r "sites" = true → listOrAbsent m "sites" = true) := by
  simp only [tokenizeStudy] at h
  rcases hp₁ : tokenizeScalarField s
    (dictSet r "_skyflow_protected" (Value.bool true)) "lead_sponsor" with ⟨s₁, t₁⟩
  rw [hp₁] at h
  cases hp₂ : tokenizeSeqField s₁ t₁ "investigators" with
  | none => rw [hp₂] at h; cases h
  | some q₂ =>
    obtain ⟨s₂, t₂⟩ := q₂
    rw [hp₂] at h
    dsimp only at h
    cases hp₃ : tokenizeSeqField s₂ t₂ "sites" with
    | none => rw [hp₃] at h; cases h
    | some q₃ =>
      obtain ⟨s₃, t₃⟩ := q₃
      rw [hp₃] at h
      dsimp only at h
      simp only [Option.some.injEq, Prod.mk.injEq] at h
      obtain ⟨rfl, rfl⟩ := h
      obtain ⟨ext₁, frame₁, rec₁, _, _⟩ := tokenizeScalarField_spec s s₁
        (dictSet r "_skyflow_protected" (Value.bool true)) t₁ "lead_sponsor" hp₁
      obtain ⟨ext₂, frame₂, rec₂, pres₂⟩ :=
        tokenizeSeqField_spec s₁ s₂ t₁ t₂ "investigators" hp₂
      obtain ⟨ext₃, frame₃, rec₃, pres₃⟩ :=
        tokenizeSeqField_spec s₂ s₃ t₂ t₃ "sites" hp₃
      refine ⟨extends_trans ext₁ (extends_trans ext₂ ext₃), ?_, ?_, ?_, ?_, ?_, ?_⟩
      · rw [frame₃ _ (by decide), frame₂ _ (by decide), frame₁ _ (by decide)]
        exact dictGet_set_self _ _ _
      · intro k h1 h2 h3 h4
        rw [frame₃ k h3, frame₂ k h2, frame₁ k h1, dictGet_set_ne _ _ _ _ h4]
      · intro v hv htr
        have hv₀ : dictGet (dictSet r "_skyflow_protected" (Value.bool true))
            "lead_sponsor" = some v := by
          rw [dictGet_set_ne _ _ _ _ (by decide)]
          exact hv
        obtain ⟨mval, hm, hrec⟩ := rec₁ v hv₀ htr
        refine ⟨mval, ?_, recoverVal_mono hrec (extends_trans ext₂ ext₃)⟩
        rw [frame₃ _ (by decide), frame₂ _ (by decide)]
        exact hm
      · intro fld hfld l hl htr
        rcases hfld with rfl | rfl
        · have hl₁ : dictGet t₁ "investigators" = some (Value.list l) := by
            rw [frame₁ _ (by decide), dictGet_set_ne _ _ _ _ (by decide)]
            exact hl
          obtain ⟨out, ho, hrec⟩ := rec₂ l hl₁ htr
          refine ⟨out, ?_, fun sx hext => hrec sx (extends_trans ext₃ hext)⟩
          rw [frame₃ _ (by decide)]
          exact ho
        · have hl₂ : dictGet t₂ "sites" = some (Value.list l) := by
            rw [frame₂ _ (by decide), frame₁ _ (by decide),
              dictGet_set_ne _ _ _ _ (by decide)]
            exact hl
          obtain ⟨out, ho, hrec⟩ := rec₃ l hl₂ htr
          exact ⟨out, ho, hrec⟩
      · intro hla
        have h₀ := listOrAbsent_of_get_eq r _ "investigators"
          (dictGet_set_ne r "_skyflow_protected" "investigators"
            (Value.bool true) (by decide)) hla
        have h₁ := listOrAbsent_of_get_eq _ t₁ "investigators"
          (frame₁ "investigators" (by decide)) h₀
        exact listOrAbsent_of_get_eq _ t₃ "investigators"
          (frame₃ "investigators" (by decide)) (pres₂ h₁)
      · intro hla
        have h₀ := listOrAbsent_of_get_eq r _ "sites"
          (dictGet_set_ne r "_skyflow_protected" "sites"
            (Value.bool true) (by decide)) hla
        have h₁ := listOrAbsent_of_get_eq _ t₁ "sites"
          (frame₁ "sites" (by decide)) h₀
        have h₂ := listOrAbsent_of_get_eq _ t₂ "sites"
          (frame₂ "sites" (by decide)) h₁
        exact pres₃ h₂

theorem tokenizeStudy_success (s : SkyflowManager) (r : Study)
    (hWF : WFStudy r = true) :
    ∃ s' m, tokenizeStudy s r = some (s', m) := by
  have hWF' := hWF
  unfold WFStudy at hWF'
  simp only [Bool.and_eq_true] at hWF'
  obtain ⟨hinv, hsites⟩ := hWF'
  rcases hp₁ : tokenizeScalarField s
    (dictSet r "_skyflow_protected" (Value.bool true)) "lead_sponsor" with ⟨s₁, t₁⟩
  obtain ⟨_, frame₁, _, _, _⟩ := tokenizeScalarField_spec s s₁
    (dictSet r "_skyflow_protected" (Value.bool true)) t₁ "lead_sponsor" hp₁
  have hinv₁ : listOrAbsent t₁ "investigators" = true := by
    apply listOrAbsent_of_get_eq r t₁ "investigators" ?_ hinv
    rw [frame₁ "investigators" (by decide), dictGet_set_ne _ _ _ _ (by decide)]
  obtain ⟨s₂, t₂, hp₂⟩ := tokenizeSeqField_success s₁ t₁ "investigators" hinv₁
  obtain ⟨_, frame₂, _, _⟩ := tokenizeSeqField_spec s₁ s₂ t₁ t₂ "investigators" hp₂
  have hsites₂ : listOrAbsent t₂ "sites" = true := by
    apply listOrAbsent_of_get_eq r t₂ "sites" ?_ hsites
    rw [frame₂ "sites" (by decide), frame₁ "sites" (by decide),
      dictGet_set_ne _ _ _ _ (by decide)]
  obtain ⟨s₃, t₃, hp₃⟩ := tokenizeSeqField_success s₂ t₂ "sites" hsites₂
  refine ⟨s₃, t₃, ?_⟩
  simp only [tokenizeStudy]
  rw [hp₁]
  dsimp only
  rw [hp₂]
  dsimp only
  rw [hp₃]

theorem tokenize_batch_spec :
    ∀ (studies : List Study) (s s' : SkyflowManager) (out : List Study),
      tokenize_batch s studies = some (s', out) →
      Extends s s' ∧ out.length = studies.length ∧
      ∀ m ∈ out, dictGet m "_skyflow_protected" = some (Value.bool true) := by
  intro studies
  induction studies with
  | nil =>
    intro s s' out h
    simp only [tokenize_batch, Option.some.injEq, Prod.mk.injEq] at h
    obtain ⟨rfl, rfl⟩ := h
    exact ⟨extends_refl s, rfl, by simp⟩
  | cons st rest ih =>
    intro s s' out h
    simp only [tokenize_batch] at h
    cases h₁ : tokenizeStudy s st with
    | none => rw [h₁] at h; cases h
    | some p =>
      obtain ⟨s₁, t⟩ := p
      rw [h₁] at h
      dsimp only at h
      cases h₂ : tokenize_batch s₁ rest with
      | none => rw [h₂] at h; cases h
      | some q =>
        obtain ⟨s₂, ts⟩ := q
        rw [h₂] at h
        dsimp only at h
        simp only [Option.some.injEq, Prod.mk.injEq] at h
        obtain ⟨rfl, rfl⟩ := h
        obtain ⟨ext₁, flag₁, _, _, _, _, _⟩ := tokenizeStudy_spec s st s₁ t h₁
        obtain ⟨ext₂, hlen, hflags⟩ := ih s₁ s₂ ts h₂
        refine ⟨extends_trans ext₁ ext₂, by simp [hlen], ?_⟩
        intro m hm
        rcases List.mem_cons.mp hm with rfl | hm
        · exact flag₁
        · exact hflags m hm

theorem tokenize_batch_success :
    ∀ (studies : List Study) (s : SkyflowManager),
      (∀ r ∈ studies, WFStudy r = true) →
      ∃ s' out, tokenize_batch s studies = some (s', out) := by
  intro studies
  induction studies with
  | nil => intro s _; exact ⟨s, [], rfl⟩
  | cons st rest ih =>
    intro s hWF
    obtain ⟨s₁, t, h₁⟩ := tokenizeStudy_success s st (hWF st (by simp))
    obtain ⟨s₂, ts, h₂⟩ := ih s₁ (fun r hr => hWF r (by simp [hr]))
    refine ⟨s₂, t :: ts, ?_⟩
    simp only [tokenize_batch]
    rw [h₁]
    dsimp only
    rw [h₂]

theorem tokenize_batch_singleton (s s' : SkyflowManager) (r m : Study)
    (h : tokenizeStudy s r = some (s', m)) :
    tokenize_batch s [r] = some (s', [m]) := by
  simp only [tokenize_batch]
  rw [h]

/-! ### Detokenization lemmas -/

theorem detokValue_unknown (store : List (String × Value)) (str : String)
    (hsw : pyStartsWith str "[TOKENIZED:" = true)
    (hun : dictGet store (extractToken str) = none) :
    detokValue store (Value.str str) = Value.str str := by
  simp [detokValue, hsw, dictGetD, hun]

theorem detokScalarField_frame (store : List (String × Value)) (t : Study)
    (fld k : String) (hk : k ≠ fld) :
    dictGet (detokScalarField store t fld) k = dictGet t k := by
  unfold detokScalarField
  cases hg : dictGet t fld with
  | none => rfl
  | some v =>
    cases v with
    | str sv =>
      dsimp only
      cases hsw : pyStartsWith sv "[TOKENIZED:" with
      | true =>
        simp only [hsw, if_true]
        exact dictGet_set_ne _ _ _ _ hk
      | false => simp [hsw]
    | list l => rfl
    | bool b => rfl
    | int n => rfl
    | null => rfl

theorem detokScalarField_val (store : List (String × Value)) (t : Study)
    (fld : String) (v : Value) (h : dictGet t fld = some v) :
    dictGet (detokScalarField store t fld) fld = some (detokValue store v) := by
  unfold detokScalarField
  rw [h]
  cases v with
  | str sv =>
    dsimp only
    cases hsw : pyStartsWith sv "[TOKENIZED:" with
    | true => simp [detokValue, hsw, dictGet_set_self]
    | false => simp [detokValue, hsw, h]
  | list l => simpa [detokValue] using h
  | bool b => simpa [detokValue] using h
  | int n => simpa [detokValue] using h
  | null => simpa [detokValue] using h

theorem detokSeqField_spec (store : List (String × Value)) (t : Study)
    (fld : String) (t' : Study) (h : detokSeqField store t fld = some t') :
    (∀ k, k ≠ fld → dictGet t' k = dictGet t k) ∧
    (∀ l, dictGet t fld = some (Value.list l) →
      dictGet t' fld = some (Value.list (l.map (detokValue store)))) ∧
    (dictGet t fld = none → t' = t) := by
  unfold detokSeqField at h
  cases hg : dictGet t fld with
  | none =>
    rw [hg] at h
    dsimp only at h
    injection h with h
    subst h
    refine ⟨fun k _ => rfl, ?_, fun _ => rfl⟩
    intro l hl
    cases hl
  | some v =>
    rw [hg] at h
    dsimp only at h
    cases hit : pyIterate v with
    | none => rw [hit] at h; cases h
    | some elems =>
      rw [hit] at h
      simp only [Option.map_some', Option.some.injEq] at h
      subst h
      refine ⟨fun k hk => dictGet_set_ne _ _ _ _ hk, ?_, ?_⟩
      · intro l hl
        injection hl with hl
        subst hl
        have hel : elems = l := by
          have hpy : pyIterate (Value.list l) = some l := rfl
          rw [hpy] at hit
          injection hit with hit
          exact hit.symm
        subst hel
        exact dictGet_set_self _ _ _
      · intro hnone
        cases hnone

theorem detokSeqField_success (store : List (String × Value)) (t : Study)
    (fld : String) (h : listOrAbsent t fld = true) :
    ∃ t', detokSeqField store t fld = some t' := by
  unfold listOrAbsent at h
  cases hg : dictGet t fld with
  | none => exact ⟨t, by unfold detokSeqField; rw [hg]⟩
  | some v =>
    rw [hg] at h
    cases v with
    | list l =>
      exact ⟨dictSet t fld (Value.list (l.map (detokValue store))),
        by unfold detokSeqField; rw [hg]; rfl⟩
    | str sv => cases h
    | bool b => cases h
    | int n => cases h
    | null => cases h

theorem detokenize_study_spec (sky : SkyflowManager) (r : Study)
    (sky' : SkyflowManager) (d : Study)
    (h : detokenize_study sky r = some (sky', d)) :
    sky' = sky ∧
    dictGet d "_skyflow_protected" = some (Value.bool false) ∧
    (∀ k, k ≠ "lead_sponsor" → k ≠ "investigators" → k ≠ "sites" →
      k ≠ "_skyflow_protected" → dictGet d k = dictGet r k) ∧
    (∀ v, dictGet r "lead_sponsor" = some v →
      dictGet d "lead_sponsor" = some (detokValue sky.token_store v)) ∧
    (∀ fld, fld = "investigators" ∨ fld = "sites" →
      ∀ l, dictGet r fld = some (Value.list l) →
        dictGet d fld = some (Value.list (l.map (detokValue sky.token_store)))) := by
  simp only [detokenize_study] at h
  cases hq₂ : detokSeqField sky.token_store
      (detokScalarField sky.token_store r "lead_sponsor") "investigators" with
  | none => rw [hq₂] at h; cases h
  | some d₂ =>
    rw [hq₂] at h
    dsimp only at h
    cases hq₃ : detokSeqField sky.token_store d₂ "sites" with
    | none => rw [hq₃] at h; cases h
    | some d₃ =>
      rw [hq₃] at h
      dsimp only at h
      simp only [Option.some.injEq, Prod.mk.injEq] at h
      obtain ⟨rfl, rfl⟩ := h
      obtain ⟨frame₂, val₂, _⟩ := detokSeqField_spec _ _ _ _ hq₂
      obtain ⟨frame₃, val₃, _⟩ := detokSeqField_spec _ _ _ _ hq₃
      refine ⟨rfl, dictGet_set_self _ _ _, ?_, ?_, ?_⟩
      · intro k h1 h2 h3 h4
        rw [dictGet_set_ne _ _ _ _ h4, frame₃ k h3, frame₂ k h2,
          detokScalarField_frame _ _ _ _ h1]
      · intro v hv
        rw [dictGet_set_ne _ _ _ _ (by decide), frame₃ _ (by decide),
          frame₂ _ (by decide)]
        exact detokScalarField_val _ _ _ _ hv
      · intro fld hfld l hl
        rcases hfld with rfl | rfl
        · rw [dictGet_set_ne _ _ _ _ (by decide), frame₃ _ (by decide)]
          apply val₂
          rw [detokScalarField_frame _ _ _ _ (by decide)]
          exact hl
        · rw [dictGet_set_ne _ _ _ _ (by decide)]
          apply val₃
          rw [frame₂ _ (by decide), detokScalarField_frame _ _ _ _ (by decide)]
          exact hl

theorem detokenize_study_success (sky : SkyflowManager) (r : Study)
    (h1 : listOrAbsent r "investigators" = true)
    (h2 : listOrAbsent r "sites" = true) :
    ∃ d, detokenize_study sky r = some (sky, d) := by
  have h1' : listOrAbsent (detokScalarField sky.token_store r "lead_sponsor")
      "investigators" = true :=
    listOrAbsent_of_get_eq r _ "investigators"
      (detokScalarField_frame _ _ _ _ (by decide)) h1
  obtain ⟨d₂, hq₂⟩ := detokSeqField_success sky.token_store _ "investigators" h1'
  obtain ⟨frame₂, _, _⟩ := detokSeqField_spec _ _ _ _ hq₂
  have h2' : listOrAbsent d₂ "sites" = true := by
    apply listOrAbsent_of_get_eq r d₂ "sites" ?_ h2
    rw [frame₂ _ (by decide), detokScalarField_frame _ _ _ _ (by decide)]
  obtain ⟨d₃, hq₃⟩ := detokSeqField_success sky.token_store d₂ "sites" h2'
  refine ⟨dictSet d₃ "_skyflow_protected" (Value.bool false), ?_⟩
  simp only [detokenize_study]
  rw [hq₂]
  dsimp only
  rw [hq₃]

theorem vaultInv_init : VaultInv SkyflowManager.init := by
  simp [VaultInv, SkyflowManager.init, dictKeys]

theorem vaultInv_mintStore (s : SkyflowManager) (v : Value) (h : VaultInv s) :
    VaultInv (mintStore s v).2 := by
  unfold VaultInv at *
  rw [mintStore_store, mintStore_counter]
  have habs : dictGet s.token_store (tokenOf (s.token_counter + 1)) = none := by
    apply dictGet_eq_none_of_not_mem_keys
    rw [h]
    intro hmem
    obtain ⟨i, hi, he⟩ := List.mem_map.mp hmem
    have h1 := tokenOf_injective he
    have h2 := List.mem_range.mp hi
    omega
  rw [dictKeys_set_of_absent _ _ _ habs, h, List.range_succ, List.map_append]
  rfl

theorem vaultInv_tokenizeSeq :
    ∀ (l : List Value) (s : SkyflowManager),
      VaultInv s → VaultInv (tokenizeSeq s l).1 := by
  intro l
  induction l with
  | nil => intro s h; exact h
  | cons v vs ih => intro s h; exact ih (mintStore s v).2 (vaultInv_mintStore s v h)

theorem vaultInv_tokenizeScalarField (s : SkyflowManager) (t : Study)
    (fld : String) (h : VaultInv s) :
    VaultInv (tokenizeScalarField s t fld).1 := by
  unfold tokenizeScalarField
  cases hg : dictGet t fld with
  | none => exact h
  | some v =>
    dsimp only
    cases ht : truthy v with
    | false =>
      simp only [ht, Bool.false_eq_true, if_false]
      exact h
    | true =>
      simp only [ht, if_true]
      exact vaultInv_mintStore s v h

theorem vaultInv_tokenizeSeqField (s s' : SkyflowManager) (t t' : Study)
    (fld : String) (hq : tokenizeSeqField s t fld = some (s', t'))
    (h : VaultInv s) : VaultInv s' := by
  unfold tokenizeSeqField at hq
  cases hg : dictGet t fld with
  | none =>
    rw [hg] at hq
    dsimp only at hq
    simp only [Option.some.injEq, Prod.mk.injEq] at hq
    obtain ⟨rfl, rfl⟩ := hq
    exact h
  | some v =>
    rw [hg] at hq
    dsimp only at hq
    cases ht : truthy v with
    | false =>
      rw [ht] at hq
      simp only [Bool.false_eq_true, if_false, Option.some.injEq,
        Prod.mk.injEq] at hq
      obtain ⟨rfl, rfl⟩ := hq
      exact h
    | true =>
      rw [ht] at hq
      simp only [if_true] at hq
      cases hit : pyIterate v with
      | none => rw [hit] at hq; cases hq
      | some elems =>
        rw [hit] at hq
        simp only [Option.map_some', Option.some.injEq, Prod.mk.injEq] at hq
        obtain ⟨rfl, rfl⟩ := hq
        exact vaultInv_tokenizeSeq elems s h

theorem vaultInv_tokenizeStudy (s s' : SkyflowManager) (r m : Study)
    (hq : tokenizeStudy s r = some (s', m)) (h : VaultInv s) : VaultInv s' := by
  simp only [tokenizeStudy] at hq
  rcases hp₁ : tokenizeScalarField s
    (dictSet r "_skyflow_protected" (Value.bool true)) "lead_sponsor" with ⟨s₁, t₁⟩
  rw [hp₁] at hq
  have h₁ : VaultInv s₁ := by
    have hv := vaultInv_tokenizeScalarField s
      (dictSet r "_skyflow_protected" (Value.bool true)) "lead_sponsor" h
    rw [hp₁] at hv
    exact hv
  cases hp₂ : tokenizeSeqField s₁ t₁ "investigators" with
  | none => rw [hp₂] at hq; cases hq
  | some q₂ =>
    obtain ⟨s₂, t₂⟩ := q₂
    rw [hp₂] at hq
    dsimp only at hq
    have h₂ := vaultInv_tokenizeSeqField s₁ s₂ t₁ t₂ "investigators" hp₂ h₁
    cases hp₃ : tokenizeSeqField s₂ t₂ "sites" with
    | none => rw [hp₃] at hq; cases hq
    | some q₃ =>
      obtain ⟨s₃, t₃⟩ := q₃
      rw [hp₃] at hq
      dsimp only at hq
      simp only [Option.some.injEq, Prod.mk.injEq] at hq
      obtain ⟨rfl, rfl⟩ := hq
      exact vaultInv_tokenizeSeqField s₂ s₃ t₂ t₃ "sites" hp₃ h₂

theorem vaultInv_tokenize_batch :
    ∀ (studies : List Study) (s s' : SkyflowManager) (out : List Study),
      tokenize_batch s studies = some (s', out) → VaultInv s → VaultInv s' := by
  intro studies
  induction studies with
  | nil =>
    intro s s' out hq h
    simp only [tokenize_batch, Option.some.injEq, Prod.mk.injEq] at hq
    obtain ⟨rfl, rfl⟩ := hq
    exact h
  | cons st rest ih =>
    intro s s' out hq h
    simp only [tokenize_batch] at hq
    cases h₁ : tokenizeStudy s st with
    | none => rw [h₁] at hq; cases hq
    | some p =>
      obtain ⟨s₁, t⟩ := p
      rw [h₁] at hq
      dsimp only at hq
      cases h₂ : tokenize_batch s₁ rest with
      | none => rw [h₂] at hq; cases hq
      | some q =>
        obtain ⟨s₂, ts⟩ := q
        rw [h₂] at hq
        dsimp only at hq
        simp only [Option.some.injEq, Prod.mk.injEq] at hq
        obtain ⟨rfl, rfl⟩ := hq
        exact ih s₁ s₂ ts h₂ (vaultInv_tokenizeStudy s s₁ st t h₁ h)

theorem vaultInv_length (s : SkyflowManager) (h : VaultInv s) :
    s.token_store.length = s.token_counter := by
  have hl := congrArg List.length h
  simpa [dictKeys] using hl

theorem reachable_inv (s : SkyflowManager) (n : Nat) (h : Reachable s n) :
    s.token_counter = n ∧ VaultInv s := by
  induction h with
  | init => exact ⟨rfl, vaultInv_init⟩
  | mask s n studies s' out _ hq ih =>
    obtain ⟨hext, _, _⟩ := tokenize_batch_spec studies s s' out hq
    have hc := hext.1
    refine ⟨by omega, vaultInv_tokenize_batch studies s s' out hq ih.2⟩
  | unmask s n r s' d _ hq ih =>
    have he := (detokenize_study_spec s r s' d hq).1
    subst he
    exact ih

/-! ### Token generation sequences (for the token-format property) -/

theorem genTokens_eq :
    ∀ (k : Nat) (s : SkyflowManager),
      genTokens s k =
        (List.range k).map (fun i => tokenOf (s.token_counter + i + 1)) := by
  intro k
  induction k with
  | zero => intro s; rfl
  | succ k ih =>
    intro s
    simp only [genTokens, generate_token]
    rw [ih]
    dsimp only
    rw [List.range_succ_eq_map, List.map_cons, List.map_map]
    refine congrArg₂ List.cons ?_ ?_
    · norm_num
    · apply List.map_congr_left
      intro a _
      simp only [Function.comp]
      congr 1
      omega

theorem sixDigitForm_tokenOf (m : Nat) (h : m ≤ 999999) :
    SixDigitForm (tokenOf m) := by
  refine ⟨padSix (natDigits m), ?_, ?_, rfl⟩
  · exact padSix_length _ (natDigits_length_le 6 m (by norm_num) (by omega))
  · intro c hc
    rcases List.mem_append.mp hc with hc | hc
    · have := List.eq_of_mem_replicate hc
      subst this
      decide
    · exact natDigits_isDigit m c hc

/-! ### Heap (object-identity) lemmas -/

theorem heapRead_append (h : Heap) (d : Study) (r : Nat) (hr : r < h.length) :
    heapRead (h ++ [d]) r = heapRead h r := by
  unfold heapRead
  exact List.getD_append _ _ _ _ hr

theorem tokenize_batch_heap_spec :
    ∀ (rs : List Nat) (sky : SkyflowManager) (h : Heap)
      (res : SkyflowManager × Heap × List Nat),
      tokenize_batch_heap sky h rs = some res →
      (∀ r, r < h.length → heapRead res.2.1 r = heapRead h r) ∧
      (∀ r' ∈ res.2.2, h.length ≤ r') := by
  intro rs
  induction rs with
  | nil =>
    intro sky h res hrun
    simp only [tokenize_batch_heap, Option.some.injEq] at hrun
    subst hrun
    exact ⟨fun r _ => rfl, by simp⟩
  | cons r₀ rest ih =>
    intro sky h res hrun
    simp only [tokenize_batch_heap] at hrun
    cases h₁ : tokenizeStudy sky (heapRead h r₀) with
    | none => rw [h₁] at hrun; cases hrun
    | some p =>
      obtain ⟨sky₁, d⟩ := p
      rw [h₁] at hrun
      dsimp only at hrun
      cases h₂ : tokenize_batch_heap sky₁ (heapAlloc h d).2 rest with
      | none => rw [h₂] at hrun; cases hrun
      | some q =>
        obtain ⟨sky₂, h₂', rs₂⟩ := q
        rw [h₂] at hrun
        dsimp only at hrun
        simp only [Option.some.injEq] at hrun
        subst hrun
        obtain ⟨hreads, hfresh⟩ := ih sky₁ (heapAlloc h d).2 (sky₂, h₂', rs₂) h₂
        have hlen : (heapAlloc h d).2.length = h.length + 1 := by
          simp [heapAlloc]
        refine ⟨?_, ?_⟩
        · intro r hr
          have hr' := hreads r (by rw [hlen]; omega)
          dsimp only at hr' ⊢
          rw [hr']
          exact heapRead_append h d r hr
        · intro r' hr'
          rcases List.mem_cons.mp hr' with rfl | hr'
          · show h.length ≤ (heapAlloc h d).1
            simp [heapAlloc]
          · have := hfresh r' hr'
            rw [hlen] at this
            omega

/-! ### Claim theorems -/

/-- C1: for every record (whose designated sequence fields, when present,
hold sequences, per the data model) and every designated sensitive field
(`lead_sponsor`, `investigators`, `sites`) present with a non-empty
(truthy) value, masking the record and then unmasking the masked result
recovers the exact original field value —
`unmask(mask([record]))[0][field] == record[field]` — including for
sequence-valued fields, where each element is recovered. -/
theorem C1_mask_unmask_roundtrip (sky : SkyflowManager) (r : Study)
    (hWF : WFStudy r = true) :
    ∃ sky' m d, tokenize_batch sky [r] = some (sky', [m]) ∧
      detokenize_study sky' m = some (sky', d) ∧
      ∀ fld ∈ ["lead_sponsor", "investigators", "sites"], ∀ v,
        dictGet r fld = some v → truthy v = true → dictGet d fld = some v := by
  obtain ⟨sky', m, htok⟩ := tokenizeStudy_success sky r hWF
  obtain ⟨_, _, _, rec_ls, rec_seq, pres_inv, pres_sites⟩ :=
    tokenizeStudy_spec sky r sky' m htok
  have hWF' := hWF
  unfold WFStudy at hWF'
  simp only [Bool.and_eq_true] at hWF'
  obtain ⟨hinv, hsites⟩ := hWF'
  obtain ⟨d, hdetok⟩ :=
    detokenize_study_success sky' m (pres_inv hinv) (pres_sites hsites)
  obtain ⟨_, _, _, dval_ls, dval_seq⟩ :=
    detokenize_study_spec sky' m sky' d hdetok
  refine ⟨sky', m, d, tokenize_batch_singleton sky sky' r m htok, hdetok, ?_⟩
  intro fld hfld v hv htr
  have hfld' : fld = "lead_sponsor" ∨ fld = "investigators" ∨ fld = "sites" := by
    simpa using hfld
  have hlist : ∀ hla : listOrAbsent r fld = true, ∃ l, v = Value.list l := by
    intro hla
    unfold listOrAbsent at hla
    rw [hv] at hla
    cases v with
    | list l => exact ⟨l, rfl⟩
    | str sv => cases hla
    | bool b => cases hla
    | int n => cases hla
    | null => cases hla
  rcases hfld' with rfl | rfl | rfl
  · obtain ⟨mval, hm, hrec⟩ := rec_ls v hv htr
    rw [dval_ls mval hm, hrec sky' (extends_refl sky')]
  · obtain ⟨l, rfl⟩ := hlist hinv
    obtain ⟨out, hmf, hrec⟩ := rec_seq "investigators" (Or.inl rfl) l hv htr
    rw [dval_seq "investigators" (Or.inl rfl) out hmf,
      hrec sky' (extends_refl sky')]
  · obtain ⟨l, rfl⟩ := hlist hsites
    obtain ⟨out, hmf, hrec⟩ := rec_seq "sites" (Or.inr rfl) l hv htr
    rw [dval_seq "sites" (Or.inr rfl) out hmf, hrec sky' (extends_refl sky')]

theorem C1_mask_unmask_roundtrip_witness :
    WFStudy sampleStudy = true ∧
    (∃ sky' m d, tokenize_batch SkyflowManager.init [sampleStudy] =
        some (sky', [m]) ∧
      detokenize_study sky' m = some (sky', d) ∧
      ∀ fld ∈ ["lead_sponsor", "investigators", "sites"], ∀ v,
        dictGet sampleStudy fld = some v → truthy v = true →
          dictGet d fld = some v) :=
  ⟨rfl, C1_mask_unmask_roundtrip SkyflowManager.init sampleStudy rfl⟩

/-- C2 (code bug): the FastAPI `load_data` handler does reject an empty
batch without touching the store or the vault, but the
`HTTPException(status_code=400, detail="No studies provided")` it raises
inside the `try` block is caught by the handler's blanket
`except Exception as e` (`HTTPException` subclasses `Exception`) and
re-raised as `HTTPException(500, str(e))` — so the rejection surfaces as
HTTP 500, not the claimed 400.  The prior state is returned unchanged, as
claimed.  (The Flask variant returns the 400 directly; see
`cache_data_empty_rejected_400`.) -/
theorem C2_load_empty_surfaces_500 (sky : SkyflowManager) (store : DataStore)
    (condition now : String) :
    load_data sky store condition [] now =
      (sky, store, Except.error ⟨500, "400: No studies provided"⟩) := rfl

/-- The Flask/Redis variant rejects an empty batch with HTTP 400 and
leaves the keyspace untouched. -/
theorem cache_data_empty_rejected_400 (rs : List (String × String))
    (encStudies : List Study → String)
    (encMeta : Nat → String → String → String) (condition now : String) :
    cache_data true rs encStudies encMeta condition [] now =
      (rs, Except.error ⟨400, "No studies provided"⟩) := rfl

/-- C3 counterexample: the claim "every token has the form
`sky_<6-digit zero-padded counter>`" fails within a process lifetime: the
millionth token minted by one manager instance is `"sky_1000000"`, whose
counter part has seven digits. -/
theorem C3_counterexample_millionth_token :
    "sky_1000000" ∈ genTokens SkyflowManager.init 1000000 ∧
    ¬ SixDigitForm "sky_1000000" := by
  constructor
  · rw [genTokens_eq]
    have htok : tokenOf 1000000 = "sky_1000000" := by decide
    rw [← htok]
    refine List.mem_map.mpr ⟨999999, List.mem_range.mpr (by norm_num), ?_⟩
    show tokenOf (0 + 999999 + 1) = tokenOf 1000000
    norm_num
  · rintro ⟨ds, h6, _, hdata⟩
    have h11 : "sky_1000000".data.length = 11 := rfl
    rw [hdata] at h11
    simp only [List.length_cons] at h11
    omega

/-- C3 amended: every token minted by one manager instance has the form
`sky_<counter zero-padded to at least six digits>` — exactly six digits
while the counter is at most 999999 — driven by a counter that starts at 1
and increases by one per mint (the k-th token is `tokenOf k`), and minting
N tokens yields N pairwise-distinct strings. -/
theorem C3_tokens_distinct_and_padded (N : Nat) :
    genTokens SkyflowManager.init N =
      (List.range N).map (fun i => tokenOf (i + 1)) ∧
    (genTokens SkyflowManager.init N).Nodup ∧
    (∀ t ∈ genTokens SkyflowManager.init N,
      ∃ m, 1 ≤ m ∧ m ≤ N ∧ t = tokenOf m ∧
        (m ≤ 999999 → SixDigitForm t)) := by
  have he : genTokens SkyflowManager.init N =
      (List.range N).map (fun i => tokenOf (i + 1)) := by
    rw [genTokens_eq]
    apply List.map_congr_left
    intro a _
    congr 1
    show 0 + a + 1 = a + 1
    omega
  refine ⟨he, ?_, ?_⟩
  · rw [he]
    refine List.Nodup.map ?_ (List.nodup_range N)
    intro a b hab
    have := tokenOf_injective hab
    omega
  · intro t ht
    rw [he] at ht
    obtain ⟨i, hi, rfl⟩ := List.mem_map.mp ht
    have hir := List.mem_range.mp hi
    exact ⟨i + 1, by omega, by omega, rfl,
      fun hm => sixDigitForm_tokenOf (i + 1) hm⟩

theorem C3_tokens_distinct_and_padded_witness :
    genTokens SkyflowManager.init 3 =
      ["sky_000001", "sky_000002", "sky_000003"] := by
  rw [(C3_tokens_distinct_and_padded 3).1]
  rfl

/-- C4: after `load(A)` then `load(B)` (both non-empty, both accepted),
the store's current batch is exactly the masked `B` batch — same length as
`B`, in `B`'s load order, determined by `B` alone — and `get_studies` with
a sufficient limit returns exactly that batch: loading fully overwrites,
it never merges. -/
theorem C4_load_overwrites (sky : SkyflowManager) (store : DataStore)
    (condA condB nowA nowB : String) (A B : List Study) (limit : Nat)
    (hA : A ≠ []) (hB : B ≠ [])
    (hWFA : ∀ r ∈ A, WFStudy r = true) (hWFB : ∀ r ∈ B, WFStudy r = true) :
    ∃ sky₁ store₁ r₁ sky₂ store₂ r₂ maskedB,
      load_data sky store condA A nowA = (sky₁, store₁, Except.ok r₁) ∧
      load_data sky₁ store₁ condB B nowB = (sky₂, store₂, Except.ok r₂) ∧
      tokenize_batch sky₁ B = some (sky₂, maskedB) ∧
      store₂.studies = maskedB ∧
      maskedB.length = B.length ∧
      (B.length ≤ limit →
        get_studies store₂ limit = Except.ok ⟨B.length, B.length, maskedB⟩) := by
  have hAe : A.isEmpty = false := by
    cases A with
    | nil => exact absurd rfl hA
    | cons a A' => rfl
  have hBe : B.isEmpty = false := by
    cases B with
    | nil => exact absurd rfl hB
    | cons b B' => rfl
  obtain ⟨sky₁, mA, htokA⟩ := tokenize_batch_success A sky hWFA
  obtain ⟨sky₂, mB, htokB⟩ := tokenize_batch_success B sky₁ hWFB
  obtain ⟨_, hlenB, _⟩ := tokenize_batch_spec B sky₁ sky₂ mB htokB
  have hload₁ : load_data sky store condA A nowA =
      (sky₁, ⟨mA, some ⟨A.length, mA.length, nowA, condA,
        (get_stats sky₁).total_tokens⟩⟩, Except.ok ⟨A.length, mA.length⟩) := by
    simp [load_data, hAe, htokA]
  have hload₂ : load_data sky₁
      (⟨mA, some ⟨A.length, mA.length, nowA, condA,
        (get_stats sky₁).total_tokens⟩⟩ : DataStore) condB B nowB =
      (sky₂, ⟨mB, some ⟨B.length, mB.length, nowB, condB,
        (get_stats sky₂).total_tokens⟩⟩, Except.ok ⟨B.length, mB.length⟩) := by
    simp [load_data, hBe, htokB]
  have hmBe : mB.isEmpty = false := by
    cases mB with
    | nil =>
      cases B with
      | nil => exact absurd rfl hB
      | cons b B' => simp at hlenB
    | cons x xs => rfl
  refine ⟨sky₁, _, _, sky₂, _, _, mB, hload₁, hload₂, htokB, rfl, hlenB, ?_⟩
  intro hlim
  unfold get_studies
  dsimp only
  simp only [hmBe, Bool.false_eq_true, if_false]
  have htake : mB.take limit = mB := List.take_of_length_le (by omega)
  rw [htake, hlenB, Nat.min_eq_left hlim]

theorem C4_load_overwrites_witness :
    ([sampleStudy] : List Study) ≠ [] ∧
    ([[("nct_id", Value.str "NCT2")], [("nct_id", Value.str "NCT3")]] :
      List Study) ≠ [] ∧
    (∃ sky₁ store₁ r₁ sky₂ store₂ r₂ maskedB,
      load_data SkyflowManager.init DataStore.init "condA" [sampleStudy]
        "t1" = (sky₁, store₁, Except.ok r₁) ∧
      load_data sky₁ store₁ "condB"
        [[("nct_id", Value.str "NCT2")], [("nct_id", Value.str "NCT3")]] "t2" =
        (sky₂, store₂, Except.ok r₂) ∧
      tokenize_batch sky₁
        [[("nct_id", Value.str "NCT2")], [("nct_id", Value.str "NCT3")]] =
        some (sky₂, maskedB) ∧
      store₂.studies = maskedB ∧
      maskedB.length =
        ([[("nct_id", Value.str "NCT2")], [("nct_id", Value.str "NCT3")]] :
          List Study).length ∧
      (([[("nct_id", Value.str "NCT2")], [("nct_id", Value.str "NCT3")]] :
          List Study).length ≤ 50 →
        get_studies store₂ 50 = Except.ok ⟨2, 2, maskedB⟩)) := by
  refine ⟨by simp, by simp, ?_⟩
  exact C4_load_overwrites SkyflowManager.init DataStore.init "condA" "condB"
    "t1" "t2" [sampleStudy]
    [[("nct_id", Value.str "NCT2")], [("nct_id", Value.str "NCT3")]] 50
    (by simp) (by simp) (by intro r hr; simp at hr; subst hr; rfl)
    (by intro r hr; simp at hr; rcases hr with rfl | rfl <;> rfl)

/-- C5: with the LLM client configured, a non-empty question and a loaded
batch, `/api/ask` analyzes exactly the first `min 40 n` records of the
current batch in load order (`studies[:40]`) and its response reports
`analyzed_studies = min 40 n` and `total_studies = n`. -/
theorem C5_ask_sample_cap (store : DataStore) (q a : String)
    (hq : q.isEmpty = false) (hs : store.studies ≠ []) :
    ask_claude true store q a =
      Except.ok ⟨q, a, store.studies.length, min 40 store.studies.length⟩ ∧
    askSample store.studies = store.studies.take 40 ∧
    (askSample store.studies).length = min 40 store.studies.length := by
  have hse : store.studies.isEmpty = false := by
    cases h : store.studies with
    | nil => exact absurd h hs
    | cons x xs => rfl
  refine ⟨?_, rfl, by simp [askSample, List.length_take]⟩
  unfold ask_claude
  simp [hq, hse, askSample, List.length_take]

/-- C5 witness: a 100-record batch reports `analyzedRecords == 40` and
`totalRecords == 100`. -/
theorem C5_ask_sample_cap_witness :
    ask_claude true ⟨List.replicate 100 [("nct_id", Value.str "N")], none⟩
      "q" "a" = Except.ok ⟨"q", "a", 100, 40⟩ := by
  have h := (C5_ask_sample_cap
    ⟨List.replicate 100 [("nct_id", Value.str "N")], none⟩ "q" "a" rfl
    (by simp)).1
  simpa using h

/-- C6: `detokenize_study` is inert on unknown tokens and does not fail:
for a well-formed record it always succeeds, a scalar designated field
whose string value matches the token pattern but whose embedded token has
no vault entry is returned unchanged, sequence designated fields are
rebuilt elementwise through the same per-value transform, and that
transform maps any pattern-matching string with an unknown token to
itself. -/
theorem C6_unknown_token_inert (sky : SkyflowManager) (r : Study)
    (hWF : WFStudy r = true) :
    (∃ d, detokenize_study sky r = some (sky, d) ∧
      (∀ sv, dictGet r "lead_sponsor" = some (Value.str sv) →
        pyStartsWith sv "[TOKENIZED:" = true →
        dictGet sky.token_store (extractToken sv) = none →
        dictGet d "lead_sponsor" = some (Value.str sv)) ∧
      (∀ fld, fld = "investigators" ∨ fld = "sites" → ∀ l,
        dictGet r fld = some (Value.list l) →
        dictGet d fld =
          some (Value.list (l.map (detokValue sky.token_store))))) ∧
    (∀ sv, pyStartsWith sv "[TOKENIZED:" = true →
      dictGet sky.token_store (extractToken sv) = none →
      detokValue sky.token_store (Value.str sv) = Value.str sv) := by
  have hWF' := hWF
  unfold WFStudy at hWF'
  simp only [Bool.and_eq_true] at hWF'
  obtain ⟨d, hdetok⟩ := detokenize_study_success sky r hWF'.1 hWF'.2
  obtain ⟨_, _, _, dval_ls, dval_seq⟩ := detokenize_study_spec sky r sky d hdetok
  refine ⟨⟨d, hdetok, ?_, dval_seq⟩,
    fun sv => detokValue_unknown sky.token_store sv⟩
  intro sv hv hsw hun
  rw [dval_ls _ hv, detokValue_unknown _ _ hsw hun]

theorem C6_unknown_token_inert_witness :
    WFStudy unknownTokenStudy = true ∧
    ((∃ d, detokenize_study SkyflowManager.init unknownTokenStudy =
        some (SkyflowManager.init, d) ∧
      (∀ sv, dictGet unknownTokenStudy "lead_sponsor" =
          some (Value.str sv) →
        pyStartsWith sv "[TOKENIZED:" = true →
        dictGet SkyflowManager.init.token_store (extractToken sv) = none →
        dictGet d "lead_sponsor" = some (Value.str sv)) ∧
      (∀ fld, fld = "investigators" ∨ fld = "sites" → ∀ l,
        dictGet unknownTokenStudy fld = some (Value.list l) →
        dictGet d fld = some (Value.list
          (l.map (detokValue SkyflowManager.init.token_store))))) ∧
    (∀ sv, pyStartsWith sv "[TOKENIZED:" = true →
      dictGet SkyflowManager.init.token_store (extractToken sv) = none →
      detokValue SkyflowManager.init.token_store (Value.str sv) =
        Value.str sv)) :=
  ⟨rfl, C6_unknown_token_inert SkyflowManager.init unknownTokenStudy rfl⟩

/-- C7: in every state reachable from a fresh manager by mask/unmask
operations that have minted `n` tokens in total, `get_stats` reports
`total_tokens = n` and `vault_size = n`: the two are always equal, because
every mint inserts exactly one fresh vault entry and entries are never
removed. -/
theorem C7_stats_token_count_eq_vault_size (s : SkyflowManager) (n : Nat)
    (h : Reachable s n) :
    (get_stats s).total_tokens = n ∧ (get_stats s).vault_size = n ∧
    (get_stats s).total_tokens = (get_stats s).vault_size := by
  obtain ⟨hc, hinv⟩ := reachable_inv s n h
  have hvl := vaultInv_length s hinv
  refine ⟨hc, ?_, ?_⟩ <;> simp [get_stats, hvl, hc]

theorem C7_stats_token_count_eq_vault_size_witness :
    (get_stats ⟨[("sky_000001", Value.str "Acme Health")], 1⟩).total_tokens
      = 1 ∧
    (get_stats ⟨[("sky_000001", Value.str "Acme Health")], 1⟩).vault_size
      = 1 ∧
    (get_stats ⟨[("sky_000001", Value.str "Acme Health")], 1⟩).total_tokens
      = (get_stats ⟨[("sky_000001", Value.str "Acme Health")], 1⟩).vault_size :=
  C7_stats_token_count_eq_vault_size _ 1
    (Reachable.mask SkyflowManager.init 0
      [[("lead_sponsor", Value.str "Acme Health")]]
      ⟨[("sky_000001", Value.str "Acme Health")], 1⟩
      [[("lead_sponsor", Value.str "[TOKENIZED:sky_000001]"),
        ("_skyflow_protected", Value.bool true)]]
      Reachable.init rfl)

/-- C8: masking never mutates the caller's input records.  In the
object-identity (heap) model of `tokenize_batch`, after a successful run
over valid input references every input reference still reads exactly the
record (all field names and values) it held before the call, and the
returned collection consists of freshly allocated objects. -/
theorem C8_mask_never_mutates_inputs (sky : SkyflowManager) (h : Heap)
    (rs : List Nat) (res : SkyflowManager × Heap × List Nat)
    (hrun : tokenize_batch_heap sky h rs = some res)
    (hvalid : ∀ r ∈ rs, r < h.length) :
    (∀ r ∈ rs, heapRead res.2.1 r = heapRead h r) ∧
    (∀ r' ∈ res.2.2, h.length ≤ r') := by
  obtain ⟨hreads, hfresh⟩ := tokenize_batch_heap_spec rs sky h res hrun
  exact ⟨fun r hr => hreads r (hvalid r hr), hfresh⟩

theorem C8_mask_never_mutates_inputs_witness :
    (∀ r ∈ [0],
      heapRead [[("lead_sponsor", Value.str "Acme Health")],
        [("lead_sponsor", Value.str "[TOKENIZED:sky_000001]"),
         ("_skyflow_protected", Value.bool true)]] r =
      heapRead [[("lead_sponsor", Value.str "Acme Health")]] r) ∧
    (∀ r' ∈ [1],
      ([[("lead_sponsor", Value.str "Acme Health")]] : Heap).length ≤ r') := by
  have h := C8_mask_never_mutates_inputs SkyflowManager.init
    [[("lead_sponsor", Value.str "Acme Health")]] [0]
    (⟨[("sky_000001", Value.str "Acme Health")], 1⟩,
      [[("lead_sponsor", Value.str "Acme Health")],
       [("lead_sponsor", Value.str "[TOKENIZED:sky_000001]"),
        ("_skyflow_protected", Value.bool true)]], [1])
    rfl (by decide)
  exact h

/-- C9: every record returned by `tokenize_batch` carries the protection
flag `_skyflow_protected = True`, and every record returned by
`detokenize_study` carries `_skyflow_protected = False`, regardless of
which designated fields were present. -/
theorem C9_protection_flags (sky sky' sky'' : SkyflowManager)
    (studies out : List Study) (r d : Study)
    (hmask : tokenize_batch sky studies = some (sky', out))
    (hunmask : detokenize_study sky r = some (sky'', d)) :
    (∀ m ∈ out, dictGet m "_skyflow_protected" = some (Value.bool true)) ∧
    dictGet d "_skyflow_protected" = some (Value.bool false) :=
  ⟨(tokenize_batch_spec studies sky sky' out hmask).2.2,
   (detokenize_study_spec sky r sky'' d hunmask).2.1⟩

theorem C9_protection_flags_witness :
    (∀ m ∈ [[("nct_id", Value.str "NCT2"),
        ("_skyflow_protected", Value.bool true)]],
      dictGet m "_skyflow_protected" = some (Value.bool true)) ∧
    dictGet [("nct_id", Value.str "NCT2"),
        ("_skyflow_protected", Value.bool false)]
      "_skyflow_protected" = some (Value.bool false) :=
  C9_protection_flags SkyflowManager.init SkyflowManager.init
    SkyflowManager.init [[("nct_id", Value.str "NCT2")]]
    [[("nct_id", Value.str "NCT2"), ("_skyflow_protected", Value.bool true)]]
    [("nct_id", Value.str "NCT2")]
    [("nct_id", Value.str "NCT2"), ("_skyflow_protected", Value.bool false)]
    rfl rfl

/-- C10: `detokenize_study` is read-only on the manager's state — the
vault mapping and the token counter are returned exactly as they were —
and in the returned record every field other than the three designated
sensitive fields and the protection flag is unchanged from the input; as a
pure function of `(state, record)`, repeated detokenization of the same
stored record therefore always yields the same result. -/
theorem C10_detokenize_readonly (sky sky' : SkyflowManager) (r d : Study)
    (h : detokenize_study sky r = some (sky', d)) :
    sky' = sky ∧
    (∀ k, k ≠ "lead_sponsor" → k ≠ "investigators" → k ≠ "sites" →
      k ≠ "_skyflow_protected" → dictGet d k = dictGet r k) := by
  obtain ⟨h1, _, h3, _, _⟩ := detokenize_study_spec sky r sky' d h
  exact ⟨h1, h3⟩

theorem C10_detokenize_readonly_witness :
    SkyflowManager.init = SkyflowManager.init ∧
    (∀ k, k ≠ "lead_sponsor" → k ≠ "investigators" → k ≠ "sites" →
      k ≠ "_skyflow_protected" →
      dictGet [("nct_id", Value.str "NCT9"),
        ("_skyflow_protected", Value.bool false)] k =
      dictGet [("nct_id", Value.str "NCT9")] k) :=
  C10_detokenize_readonly SkyflowManager.init SkyflowManager.init
    [("nct_id", Value.str "NCT9")]
    [("nct_id", Value.str "NCT9"), ("_skyflow_protected", Value.bool false)]
    rfl

end CTQ
